import Mathlib

/-!
Verification of the lens-cleaner photo-grouping and batch-analysis pipeline.

The definitions below are a shallow embedding of the Python source:
* `group_similar_photos`, `cosine_similarity` from `src/main.py` (clustering),
* `_create_batch_jsonl` from `src/backend/gemini_processor.py` (request building),
* the result-reconciliation loop and job-status update of `check_batch_status`
  from `src/main.py`.

Python floats are modelled as real numbers, timestamps as integers (seconds),
`datetime.fromisoformat` as an abstract parameter `f : String → Option Int`
(`none` models a raised `ValueError`), and exceptions escaping a function as
`Except Unit`.
-/

namespace LensCleaner

/-- A row of the `photos` table: the columns the core pipeline reads/writes. -/
structure PhotoRow where
  id : String
  embedding : Option (List ℝ)
  creation_time : String
  status : String
  group_id : Option String
  ai_suggestion_reason : Option String
  is_marked_for_deletion : Bool


/-- The dict shape returned by `get_photos_with_embeddings` (embedding present). -/
structure PhotoView where
  id : String
  embedding : List ℝ
  creation_time : String


/-- `np.dot` on equal-length vectors. -/
def dotList (a b : List ℝ) : ℝ := (List.zipWith (· * ·) a b).sum

/-- `cosine_similarity` from `src/main.py`: `dot(a,b) / (‖a‖·‖b‖)` with
`np.linalg.norm x = sqrt (dot x x)`. -/
noncomputable def cosine_similarity (a b : List ℝ) : ℝ :=
  dotList a b / (Real.sqrt (dotList a a) * Real.sqrt (dotList b b))

/-- Models Python `s.replace('Z', '+00:00')` (every occurrence of `Z`). -/
def replaceZ (s : String) : String :=
  ⟨s.data.foldr (fun c acc => if c = 'Z' then ("+00:00".data ++ acc) else c :: acc) []⟩

/-- The two-attempt timestamp parse of `group_similar_photos`:
`try fromisoformat(s.replace('Z','+00:00')) except: fromisoformat(s)`.
`none` means both attempts raise, so the exception escapes. -/
def parseTimeTwo (f : String → Option Int) (s : String) : Option Int :=
  match f (replaceZ s) with
  | some t => some t
  | none => f s

/-- Lexicographic comparison on char lists: Python's `<` on strings. -/
def charListLt : List Char → List Char → Bool
  | [], [] => false
  | [], _ :: _ => true
  | _ :: _, [] => false
  | a :: as, b :: bs => if a < b then true else if b < a then false else charListLt as bs

/-- Python string comparison (lexicographic by code point). -/
def strLt (a b : String) : Bool := charListLt a.data b.data

/-- Stable insertion of a photo into a list sorted ascending by `creation_time`. -/
def insertSorted (p : PhotoView) : List PhotoView → List PhotoView
  | [] => [p]
  | q :: tl =>
    if strLt p.creation_time q.creation_time then p :: q :: tl else q :: insertSorted p tl

/-- Stable sort by `creation_time` (SQL `ORDER BY creation_time` followed by
`photos.sort(key=lambda x: x["creation_time"])`). -/
def sortByTime (l : List PhotoView) : List PhotoView :=
  l.foldl (fun acc p => insertSorted p acc) []

/-- `get_photos_with_embeddings`: rows with a non-null embedding and status in
`('embedded', 'grouped')`, ordered by `creation_time`. -/
def photosWithEmbeddings (db : List PhotoRow) : List PhotoView :=
  sortByTime (db.filterMap fun r =>
    match r.embedding with
    | some e =>
      if r.status = "embedded" ∨ r.status = "grouped" then
        some ⟨r.id, e, r.creation_time⟩
      else none
    | none => none)

open Classical in
/-- The inner candidate scan of `group_similar_photos` (src/main.py:189-212):
starting from the seed's parse time `t1` and embedding `e1`, walk the sorted
suffix; skip processed photos, break once a strictly later candidate exceeds
the 60-minute window, otherwise add candidates whose cosine similarity reaches
the threshold. Returns the member ids added (in scan order) and the updated
`processed_photos` set; `.error` models an exception from timestamp parsing. -/
noncomputable def innerScan (f : String → Option Int) (thr : ℝ) (t1 : Int) (e1 : List ℝ) :
    List PhotoView → List String → Except Unit (List String × List String)
  | [], q => .ok ([], q)
  | p :: tl, q =>
    if p.id ∈ q then innerScan f thr t1 e1 tl q
    else
      match parseTimeTwo f p.creation_time with
      | none => .error ()
      | some t2 =>
        if |t2 - t1| > 3600 then
          if t1 < t2 then .ok ([], q)
          else innerScan f thr t1 e1 tl q
        else if cosine_similarity e1 p.embedding ≥ thr then
          match innerScan f thr t1 e1 tl (p.id :: q) with
          | .error e => .error e
          | .ok (ms, pr) => .ok (p.id :: ms, pr)
        else innerScan f thr t1 e1 tl q

open Classical in
/-- The outer loop of `group_similar_photos` (src/main.py:174-220): each
unprocessed photo seeds a scan; a group `("group_<counter>", seed :: members)`
is recorded only when more than one photo was collected, in which case the
counter advances. -/
noncomputable def outerLoop (f : String → Option Int) (thr : ℝ) :
    List PhotoView → List String → Nat → Except Unit (List (String × List String))
  | [], _, _ => .ok []
  | p :: tl, q, c =>
    if p.id ∈ q then outerLoop f thr tl q c
    else
      match parseTimeTwo f p.creation_time with
      | none => .error ()
      | some t1 =>
        match innerScan f thr t1 p.embedding tl (p.id :: q) with
        | .error e => .error e
        | .ok (ms, pr) =>
          if 0 < ms.length then
            match outerLoop f thr tl pr (c + 1) with
            | .error e => .error e
            | .ok gs => .ok (("group_" ++ toString c, p.id :: ms) :: gs)
          else outerLoop f thr tl pr c

/-- The group assignments produced by one clustering pass. -/
noncomputable def clusterGroups (f : String → Option Int) (db : List PhotoRow) (thr : ℝ) :
    Except Unit (List (String × List String)) :=
  outerLoop f thr (photosWithEmbeddings db) [] 1

/-- `UPDATE photos SET group_id = NULL WHERE status = 'embedded'` (src/main.py:166). -/
def resetEmbedded (db : List PhotoRow) : List PhotoRow :=
  db.map fun r => if r.status = "embedded" then { r with group_id := none } else r

/-- `UPDATE photos SET group_id = ?, status = 'grouped' WHERE id IN (members)`
(src/main.py:216-219). -/
def applyGroup (gid : String) (members : List String) (db : List PhotoRow) : List PhotoRow :=
  db.map fun r =>
    if r.id ∈ members then { r with group_id := some gid, status := "grouped" } else r

/-- All group updates of one pass, in emission order. -/
def applyGroups (gs : List (String × List String)) (db : List PhotoRow) : List PhotoRow :=
  gs.foldl (fun d g => applyGroup g.1 g.2 d) db

/-- `group_similar_photos(threshold)` from `src/main.py:155-223`, as a function
on the photos table. With fewer than two eligible photos it returns before the
reset; an unparseable timestamp raises, aborting the pass with nothing
committed (`.error`). -/
noncomputable def group_similar_photos (f : String → Option Int) (db : List PhotoRow)
    (thr : ℝ) : Except Unit (List PhotoRow) :=
  if (photosWithEmbeddings db).length < 2 then .ok db
  else
    match clusterGroups f db thr with
    | .error e => .error e
    | .ok gs => .ok (applyGroups gs (resetEmbedded db))

/-! ### Unfolding lemmas for the clustering loops -/

theorem innerScan_nil (f : String → Option Int) (thr : ℝ) (t1 : Int) (e1 : List ℝ)
    (q : List String) : innerScan f thr t1 e1 [] q = .ok ([], q) := rfl

theorem innerScan_cons_mem {p : PhotoView} {q : List String} (f : String → Option Int)
    (thr : ℝ) (t1 : Int) (e1 : List ℝ) (tl : List PhotoView) (h : p.id ∈ q) :
    innerScan f thr t1 e1 (p :: tl) q = innerScan f thr t1 e1 tl q := by
  simp only [innerScan, if_pos h]

theorem innerScan_cons_parseFail {f : String → Option Int} {p : PhotoView} {q : List String}
    (thr : ℝ) (t1 : Int) (e1 : List ℝ) (tl : List PhotoView)
    (hq : p.id ∉ q) (hp : parseTimeTwo f p.creation_time = none) :
    innerScan f thr t1 e1 (p :: tl) q = .error () := by
  simp only [innerScan, if_neg hq, hp]

theorem innerScan_cons_break {f : String → Option Int} {p : PhotoView} {q : List String}
    {t1 t2 : Int} (thr : ℝ) (e1 : List ℝ) (tl : List PhotoView)
    (hq : p.id ∉ q) (hp : parseTimeTwo f p.creation_time = some t2)
    (hw : |t2 - t1| > 3600) (hlt : t1 < t2) :
    innerScan f thr t1 e1 (p :: tl) q = .ok ([], q) := by
  simp only [innerScan, if_neg hq, hp, if_pos hw, if_pos hlt]

theorem innerScan_cons_skipTime {f : String → Option Int} {p : PhotoView} {q : List String}
    {t1 t2 : Int} (thr : ℝ) (e1 : List ℝ) (tl : List PhotoView)
    (hq : p.id ∉ q) (hp : parseTimeTwo f p.creation_time = some t2)
    (hw : |t2 - t1| > 3600) (hlt : ¬ t1 < t2) :
    innerScan f thr t1 e1 (p :: tl) q = innerScan f thr t1 e1 tl q := by
  simp only [innerScan, if_neg hq, hp, if_pos hw, if_neg hlt]

theorem innerScan_cons_join {f : String → Option Int} {thr : ℝ} {p : PhotoView}
    {q : List String} {t1 t2 : Int} {e1 : List ℝ} (tl : List PhotoView)
    (hq : p.id ∉ q) (hp : parseTimeTwo f p.creation_time = some t2)
    (hw : ¬ |t2 - t1| > 3600) (hc : cosine_similarity e1 p.embedding ≥ thr) :
    innerScan f thr t1 e1 (p :: tl) q =
      match innerScan f thr t1 e1 tl (p.id :: q) with
      | .error e => .error e
      | .ok (ms, pr) => .ok (p.id :: ms, pr) := by
  simp only [innerScan, if_neg hq, hp, if_neg hw, if_pos hc]

theorem innerScan_cons_noSim {f : String → Option Int} {thr : ℝ} {p : PhotoView}
    {q : List String} {t1 t2 : Int} {e1 : List ℝ} (tl : List PhotoView)
    (hq : p.id ∉ q) (hp : parseTimeTwo f p.creation_time = some t2)
    (hw : ¬ |t2 - t1| > 3600) (hc : ¬ cosine_similarity e1 p.embedding ≥ thr) :
    innerScan f thr t1 e1 (p :: tl) q = innerScan f thr t1 e1 tl q := by
  simp only [innerScan, if_neg hq, hp, if_neg hw, if_neg hc]

theorem outerLoop_nil (f : String → Option Int) (thr : ℝ) (q : List String) (c : Nat) :
    outerLoop f thr [] q c = .ok [] := rfl

theorem outerLoop_cons_mem {p : PhotoView} {q : List String} (f : String → Option Int)
    (thr : ℝ) (tl : List PhotoView) (c : Nat) (h : p.id ∈ q) :
    outerLoop f thr (p :: tl) q c = outerLoop f thr tl q c := by
  simp only [outerLoop, if_pos h]

theorem outerLoop_cons_parseFail {f : String → Option Int} {p : PhotoView} {q : List String}
    (thr : ℝ) (tl : List PhotoView) (c : Nat)
    (hq : p.id ∉ q) (hp : parseTimeTwo f p.creation_time = none) :
    outerLoop f thr (p :: tl) q c = .error () := by
  simp only [outerLoop, if_neg hq, hp]

theorem outerLoop_cons_group {f : String → Option Int} {thr : ℝ} {p : PhotoView}
    {q pr : List String} {t1 : Int} {ms : List String} (tl : List PhotoView) (c : Nat)
    (hq : p.id ∉ q) (hp : parseTimeTwo f p.creation_time = some t1)
    (hscan : innerScan f thr t1 p.embedding tl (p.id :: q) = .ok (ms, pr))
    (hms : 0 < ms.length) :
    outerLoop f thr (p :: tl) q c =
      match outerLoop f thr tl pr (c + 1) with
      | .error e => .error e
      | .ok gs => .ok (("group_" ++ toString c, p.id :: ms) :: gs) := by
  simp only [outerLoop, if_neg hq, hp, hscan, if_pos hms]

theorem outerLoop_cons_single {f : String → Option Int} {thr : ℝ} {p : PhotoView}
    {q pr : List String} {t1 : Int} {ms : List String} (tl : List PhotoView) (c : Nat)
    (hq : p.id ∉ q) (hp : parseTimeTwo f p.creation_time = some t1)
    (hscan : innerScan f thr t1 p.embedding tl (p.id :: q) = .ok (ms, pr))
    (hms : ¬ 0 < ms.length) :
    outerLoop f thr (p :: tl) q c = outerLoop f thr tl pr c := by
  simp only [outerLoop, if_neg hq, hp, hscan, if_neg hms]

theorem outerLoop_cons_scanFail {f : String → Option Int} {thr : ℝ} {p : PhotoView}
    {q : List String} {t1 : Int} (tl : List PhotoView) (c : Nat)
    (hq : p.id ∉ q) (hp : parseTimeTwo f p.creation_time = some t1)
    (hscan : innerScan f thr t1 p.embedding tl (p.id :: q) = .error ()) :
    outerLoop f thr (p :: tl) q c = .error () := by
  simp only [outerLoop, if_neg hq, hp, hscan]

/-! ### Invariants of the clustering loops -/

/-- The candidate's timestamp parses and lies within 60 minutes of the seed's
timestamp `t1`, boundary inclusive. -/
def withinWindow (f : String → Option Int) (t1 : Int) (p : PhotoView) : Prop :=
  ∃ t2, parseTimeTwo f p.creation_time = some t2 ∧ |t2 - t1| ≤ 3600

/-- Full functional invariant of the inner scan: the returned processed set is
the input one extended by exactly the new members; members are distinct, fresh,
and each comes from a candidate within the seed's window that passed the
similarity test. -/
theorem innerScan_spec {f : String → Option Int} {thr : ℝ} {t1 : Int} {e1 : List ℝ} :
    ∀ {rest : List PhotoView} {q ms pr : List String},
      innerScan f thr t1 e1 rest q = .ok (ms, pr) →
      (∀ x, x ∈ pr ↔ x ∈ ms ∨ x ∈ q) ∧ ms.Nodup ∧ (∀ x ∈ ms, x ∉ q) ∧
      (∀ x ∈ ms, ∃ p, p ∈ rest ∧ p.id = x ∧ withinWindow f t1 p ∧
        cosine_similarity e1 p.embedding ≥ thr) := by
  intro rest
  induction rest with
  | nil =>
    intro q ms pr h
    rw [innerScan_nil] at h
    obtain ⟨rfl, rfl⟩ : ms = [] ∧ pr = q := by
      constructor <;> injection h with h' <;> simp_all
    simp
  | cons p tl ih =>
    intro q ms pr h
    by_cases hq : p.id ∈ q
    · rw [innerScan_cons_mem f thr t1 e1 tl hq] at h
      obtain ⟨h1, h2, h3, h4⟩ := ih h
      exact ⟨h1, h2, h3, fun x hx => by
        obtain ⟨p', hp', rest'⟩ := h4 x hx
        exact ⟨p', List.mem_cons_of_mem _ hp', rest'⟩⟩
    · cases hp : parseTimeTwo f p.creation_time with
      | none =>
        rw [innerScan_cons_parseFail thr t1 e1 tl hq hp] at h
        cases h
      | some t2 =>
        by_cases hw : |t2 - t1| > 3600
        · by_cases hlt : t1 < t2
          · rw [innerScan_cons_break thr e1 tl hq hp hw hlt] at h
            obtain ⟨rfl, rfl⟩ : ms = [] ∧ pr = q := by
              constructor <;> injection h with h' <;> simp_all
            simp
          · rw [innerScan_cons_skipTime thr e1 tl hq hp hw hlt] at h
            obtain ⟨h1, h2, h3, h4⟩ := ih h
            exact ⟨h1, h2, h3, fun x hx => by
              obtain ⟨p', hp', rest'⟩ := h4 x hx
              exact ⟨p', List.mem_cons_of_mem _ hp', rest'⟩⟩
        · by_cases hc : cosine_similarity e1 p.embedding ≥ thr
          · rw [innerScan_cons_join tl hq hp hw hc] at h
            cases hrec : innerScan f thr t1 e1 tl (p.id :: q) with
            | error e => rw [hrec] at h; cases h
            | ok r =>
              obtain ⟨ms', pr'⟩ := r
              rw [hrec] at h
              obtain ⟨rfl, rfl⟩ : ms = p.id :: ms' ∧ pr = pr' := by
                constructor <;> injection h with h' <;> simp_all
              obtain ⟨h1, h2, h3, h4⟩ := ih hrec
              refine ⟨?_, ?_, ?_, ?_⟩
              · intro x
                rw [h1 x]
                simp only [List.mem_cons]
                tauto
              · exact List.nodup_cons.mpr ⟨fun hmem => (h3 _ hmem) (List.mem_cons_self _ _), h2⟩
              · intro x hx
                rcases List.mem_cons.mp hx with rfl | hx'
                · exact hq
                · exact fun hxq => (h3 x hx') (List.mem_cons_of_mem _ hxq)
              · intro x hx
                rcases List.mem_cons.mp hx with rfl | hx'
                · exact ⟨p, List.mem_cons_self _ _, rfl,
                    ⟨t2, hp, le_of_not_lt hw⟩, hc⟩
                · obtain ⟨p', hp', rest'⟩ := h4 x hx'
                  exact ⟨p', List.mem_cons_of_mem _ hp', rest'⟩
          · rw [innerScan_cons_noSim tl hq hp hw hc] at h
            obtain ⟨h1, h2, h3, h4⟩ := ih h
            exact ⟨h1, h2, h3, fun x hx => by
              obtain ⟨p', hp', rest'⟩ := h4 x hx
              exact ⟨p', List.mem_cons_of_mem _ hp', rest'⟩⟩

/-- No photo id occurs in two distinct emitted groups. -/
def groupsDisjoint (gs : List (String × List String)) : Prop :=
  gs.Pairwise (fun g1 g2 => ∀ x ∈ g1.2, x ∉ g2.2)

/-- The pass's group assignments form a partial partition: every materialized
group has at least two distinct members, and no photo id is assigned twice. -/
def partitionOK (gs : List (String × List String)) : Prop :=
  (∀ g ∈ gs, 2 ≤ g.2.length) ∧ (∀ g ∈ gs, g.2.Nodup) ∧ groupsDisjoint gs

/-- A group is seeded at one of the pass's photos and all its other members
are photos whose parsed timestamps lie within the seed's 60-minute window. -/
def groupWindowOK (f : String → Option Int) (ps : List PhotoView)
    (g : String × List String) : Prop :=
  ∃ p1 t1 ms, p1 ∈ ps ∧ parseTimeTwo f p1.creation_time = some t1 ∧
    g.2 = p1.id :: ms ∧ ∀ x ∈ ms, ∃ p, p ∈ ps ∧ p.id = x ∧ withinWindow f t1 p

/-- Full invariant of the outer loop: emitted groups have ≥ 2 distinct members
none of which was processed before the loop started, they are pairwise
disjoint, and each respects its seed's time window. -/
theorem outerLoop_spec {f : String → Option Int} {thr : ℝ} :
    ∀ {ps : List PhotoView} {q : List String} {c : Nat} {gs : List (String × List String)},
      outerLoop f thr ps q c = .ok gs →
      (∀ g ∈ gs, 2 ≤ g.2.length ∧ g.2.Nodup ∧ ∀ x ∈ g.2, x ∉ q) ∧
      groupsDisjoint gs ∧ ∀ g ∈ gs, groupWindowOK f ps g := by
  intro ps
  induction ps with
  | nil =>
    intro q c gs h
    rw [outerLoop_nil] at h
    obtain rfl : gs = [] := by injection h with h'; exact h'.symm
    simp [groupsDisjoint]
  | cons p tl ih =>
    intro q c gs h
    by_cases hq : p.id ∈ q
    · rw [outerLoop_cons_mem f thr tl c hq] at h
      obtain ⟨h1, h2, h3⟩ := ih h
      refine ⟨h1, h2, fun g hg => ?_⟩
      obtain ⟨p1, t1, ms, hp1, hrest⟩ := h3 g hg
      exact ⟨p1, t1, ms, List.mem_cons_of_mem _ hp1, hrest.1, hrest.2.1,
        fun x hx => by
          obtain ⟨p', hp', r'⟩ := hrest.2.2 x hx
          exact ⟨p', List.mem_cons_of_mem _ hp', r'⟩⟩
    · cases hp : parseTimeTwo f p.creation_time with
      | none =>
        rw [outerLoop_cons_parseFail thr tl c hq hp] at h
        cases h
      | some t1 =>
        cases hscan : innerScan f thr t1 p.embedding tl (p.id :: q) with
        | error e =>
          cases e
          rw [outerLoop_cons_scanFail tl c hq hp hscan] at h
          cases h
        | ok r =>
          obtain ⟨ms, pr⟩ := r
          obtain ⟨hiff, hnd, hfresh, hwin⟩ := innerScan_spec hscan
          have hqpr : ∀ x ∈ q, x ∈ pr := fun x hx =>
            (hiff x).mpr (Or.inr (List.mem_cons_of_mem _ hx))
          have hp_pr : p.id ∈ pr := (hiff p.id).mpr (Or.inr (List.mem_cons_self _ _))
          have hms_pr : ∀ x ∈ ms, x ∈ pr := fun x hx => (hiff x).mpr (Or.inl hx)
          by_cases hms : 0 < ms.length
          · rw [outerLoop_cons_group tl c hq hp hscan hms] at h
            cases hrec : outerLoop f thr tl pr (c + 1) with
            | error e => rw [hrec] at h; cases h
            | ok gs' =>
              rw [hrec] at h
              obtain rfl : gs = ("group_" ++ toString c, p.id :: ms) :: gs' := by
                injection h with h'; exact h'.symm
              obtain ⟨ih1, ih2, ih3⟩ := ih hrec
              refine ⟨?_, ?_, ?_⟩
              · intro g hg
                rcases List.mem_cons.mp hg with rfl | hg'
                · refine ⟨?_, ?_, ?_⟩
                  · simpa using Nat.succ_le_succ hms
                  · exact List.nodup_cons.mpr
                      ⟨fun hmem => (hfresh _ hmem) (List.mem_cons_self _ _), hnd⟩
                  · intro x hx
                    rcases List.mem_cons.mp hx with rfl | hx'
                    · exact hq
                    · exact fun hxq => (hfresh x hx') (List.mem_cons_of_mem _ hxq)
                · obtain ⟨g1, g2, g3⟩ := ih1 g hg'
                  exact ⟨g1, g2, fun x hx hxq => g3 x hx (hqpr x hxq)⟩
              · refine List.pairwise_cons.mpr ⟨?_, ih2⟩
                intro g' hg' x hx
                have hx_pr : x ∈ pr := by
                  rcases List.mem_cons.mp hx with rfl | hx'
                  · exact hp_pr
                  · exact hms_pr x hx'
                exact fun hxg => (ih1 g' hg').2.2 x hxg hx_pr
              · intro g hg
                rcases List.mem_cons.mp hg with rfl | hg'
                · refine ⟨p, t1, ms, List.mem_cons_self _ _, hp, rfl, fun x hx => ?_⟩
                  obtain ⟨p', hp', hid, hwin', _⟩ := hwin x hx
                  exact ⟨p', List.mem_cons_of_mem _ hp', hid, hwin'⟩
                · obtain ⟨p1, t1', ms', hp1, hparse, heq, hmem⟩ := ih3 g hg'
                  exact ⟨p1, t1', ms', List.mem_cons_of_mem _ hp1, hparse, heq,
                    fun x hx => by
                      obtain ⟨p', hp', r'⟩ := hmem x hx
                      exact ⟨p', List.mem_cons_of_mem _ hp', r'⟩⟩
          · rw [outerLoop_cons_single tl c hq hp hscan hms] at h
            obtain ⟨ih1, ih2, ih3⟩ := ih h
            refine ⟨?_, ih2, ?_⟩
            · intro g hg
              obtain ⟨g1, g2, g3⟩ := ih1 g hg
              exact ⟨g1, g2, fun x hx hxq => g3 x hx (hqpr x hxq)⟩
            · intro g hg
              obtain ⟨p1, t1', ms', hp1, hparse, heq, hmem⟩ := ih3 g hg
              exact ⟨p1, t1', ms', List.mem_cons_of_mem _ hp1, hparse, heq,
                fun x hx => by
                  obtain ⟨p', hp', r'⟩ := hmem x hx
                  exact ⟨p', List.mem_cons_of_mem _ hp', r'⟩⟩

/-! ### Concrete example data

Four photos seconds apart with unit-norm embeddings; `pf` is a concrete
instance of the `datetime.fromisoformat` parameter. -/

/-- Concrete timestamp parser: knows the four example timestamps. -/
def pf (s : String) : Option Int :=
  if s = "T0" then some 0
  else if s = "T1" then some 10
  else if s = "T2" then some 20
  else if s = "T3" then some 30
  else if s = "T9" then some 10000
  else none

noncomputable def rowA : PhotoRow := ⟨"A", some [1, 0], "T0", "embedded", none, none, false⟩

noncomputable def rowB : PhotoRow :=
  ⟨"B", some [4/5, 3/5], "T1", "embedded", none, none, false⟩

noncomputable def rowC : PhotoRow :=
  ⟨"C", some [3/5, 4/5], "T2", "embedded", none, none, false⟩

noncomputable def rowD : PhotoRow :=
  ⟨"D", some [3/5, 4/5], "T3", "embedded", none, none, false⟩

noncomputable def exDb : List PhotoRow := [rowA, rowB, rowC, rowD]

noncomputable def vA : PhotoView := ⟨"A", [1, 0], "T0"⟩

noncomputable def vB : PhotoView := ⟨"B", [4/5, 3/5], "T1"⟩

noncomputable def vC : PhotoView := ⟨"C", [3/5, 4/5], "T2"⟩

noncomputable def vD : PhotoView := ⟨"D", [3/5, 4/5], "T3"⟩

theorem exDb_views : photosWithEmbeddings exDb = [vA, vB, vC, vD] := rfl

theorem parse_T0 : parseTimeTwo pf "T0" = some 0 := rfl

theorem parse_T1 : parseTimeTwo pf "T1" = some 10 := rfl

theorem parse_T2 : parseTimeTwo pf "T2" = some 20 := rfl

theorem parse_T3 : parseTimeTwo pf "T3" = some 30 := rfl

theorem cs_AB : cosine_similarity vA.embedding vB.embedding = 4/5 := by
  have h1 : dotList vA.embedding vB.embedding = 4/5 := by norm_num [dotList, vA, vB]
  have h2 : dotList vA.embedding vA.embedding = 1 := by norm_num [dotList, vA]
  have h3 : dotList vB.embedding vB.embedding = 1 := by norm_num [dotList, vB]
  rw [cosine_similarity, h1, h2, h3, Real.sqrt_one, mul_one, div_one]

theorem cs_AC : cosine_similarity vA.embedding vC.embedding = 3/5 := by
  have h1 : dotList vA.embedding vC.embedding = 3/5 := by norm_num [dotList, vA, vC]
  have h2 : dotList vA.embedding vA.embedding = 1 := by norm_num [dotList, vA]
  have h3 : dotList vC.embedding vC.embedding = 1 := by norm_num [dotList, vC]
  rw [cosine_similarity, h1, h2, h3, Real.sqrt_one, mul_one, div_one]

theorem cs_AD : cosine_similarity vA.embedding vD.embedding = 3/5 := by
  have h1 : dotList vA.embedding vD.embedding = 3/5 := by norm_num [dotList, vA, vD]
  have h2 : dotList vA.embedding vA.embedding = 1 := by norm_num [dotList, vA]
  have h3 : dotList vD.embedding vD.embedding = 1 := by norm_num [dotList, vD]
  rw [cosine_similarity, h1, h2, h3, Real.sqrt_one, mul_one, div_one]

theorem cs_BC : cosine_similarity vB.embedding vC.embedding = 24/25 := by
  have h1 : dotList vB.embedding vC.embedding = 24/25 := by norm_num [dotList, vB, vC]
  have h2 : dotList vB.embedding vB.embedding = 1 := by norm_num [dotList, vB]
  have h3 : dotList vC.embedding vC.embedding = 1 := by norm_num [dotList, vC]
  rw [cosine_similarity, h1, h2, h3, Real.sqrt_one, mul_one, div_one]

theorem cs_BD : cosine_similarity vB.embedding vD.embedding = 24/25 := by
  have h1 : dotList vB.embedding vD.embedding = 24/25 := by norm_num [dotList, vB, vD]
  have h2 : dotList vB.embedding vB.embedding = 1 := by norm_num [dotList, vB]
  have h3 : dotList vD.embedding vD.embedding = 1 := by norm_num [dotList, vD]
  rw [cosine_similarity, h1, h2, h3, Real.sqrt_one, mul_one, div_one]

theorem cs_CD : cosine_similarity vC.embedding vD.embedding = 1 := by
  have h1 : dotList vC.embedding vD.embedding = 1 := by norm_num [dotList, vC, vD]
  have h2 : dotList vC.embedding vC.embedding = 1 := by norm_num [dotList, vC]
  have h3 : dotList vD.embedding vD.embedding = 1 := by norm_num [dotList, vD]
  rw [cosine_similarity, h1, h2, h3, Real.sqrt_one, mul_one, div_one]

theorem scanA07 : innerScan pf (7/10) 0 vA.embedding [vB, vC, vD] ["A"] =
    .ok (["B"], ["B", "A"]) := by
  rw [innerScan_cons_join [vC, vD] (by decide) parse_T1 (by decide)
    (by rw [cs_AB]; norm_num)]
  rw [innerScan_cons_noSim [vD] (by decide) parse_T2 (by decide)
    (by rw [cs_AC]; norm_num)]
  rw [innerScan_cons_noSim [] (by decide) parse_T3 (by decide)
    (by rw [cs_AD]; norm_num)]
  rw [innerScan_nil]
  rfl

theorem scanC07 : innerScan pf (7/10) 20 vC.embedding [vD] ["C", "B", "A"] =
    .ok (["D"], ["D", "C", "B", "A"]) := by
  rw [innerScan_cons_join [] (by decide) parse_T3 (by decide)
    (by rw [cs_CD]; norm_num)]
  rw [innerScan_nil]
  rfl

theorem evalGroups07 : clusterGroups pf exDb (7/10) =
    .ok [("group_1", ["A", "B"]), ("group_2", ["C", "D"])] := by
  rw [clusterGroups, exDb_views]
  rw [outerLoop_cons_group [vB, vC, vD] 1 (by decide) parse_T0 scanA07 (by decide)]
  rw [outerLoop_cons_mem pf (7/10) [vC, vD] 2 (by decide)]
  rw [outerLoop_cons_group [vD] 2 (by decide) parse_T2 scanC07 (by decide)]
  rw [outerLoop_cons_mem pf (7/10) [] 3 (by decide)]
  rw [outerLoop_nil]
  rfl

theorem scanA09 : innerScan pf (9/10) 0 vA.embedding [vB, vC, vD] ["A"] =
    .ok ([], ["A"]) := by
  rw [innerScan_cons_noSim [vC, vD] (by decide) parse_T1 (by decide)
    (by rw [cs_AB]; norm_num)]
  rw [innerScan_cons_noSim [vD] (by decide) parse_T2 (by decide)
    (by rw [cs_AC]; norm_num)]
  rw [innerScan_cons_noSim [] (by decide) parse_T3 (by decide)
    (by rw [cs_AD]; norm_num)]
  rw [innerScan_nil]

theorem scanB09 : innerScan pf (9/10) 10 vB.embedding [vC, vD] ["B", "A"] =
    .ok (["C", "D"], ["D", "C", "B", "A"]) := by
  rw [innerScan_cons_join [vD] (by decide) parse_T2 (by decide)
    (by rw [cs_BC]; norm_num)]
  rw [innerScan_cons_join [] (by decide) parse_T3 (by decide)
    (by rw [cs_BD]; norm_num)]
  rw [innerScan_nil]
  rfl

theorem evalGroups09 : clusterGroups pf exDb (9/10) =
    .ok [("group_1", ["B", "C", "D"])] := by
  rw [clusterGroups, exDb_views]
  rw [outerLoop_cons_single [vB, vC, vD] 1 (by decide) parse_T0 scanA09 (by decide)]
  rw [outerLoop_cons_group [vC, vD] 1 (by decide) parse_T1 scanB09 (by decide)]
  rw [outerLoop_cons_mem pf (9/10) [vD] 2 (by decide)]
  rw [outerLoop_cons_mem pf (9/10) [] 2 (by decide)]
  rw [outerLoop_nil]
  rfl

/-! ### Claims about the clustering engine -/

/-- C1: a single clustering pass assigns each photo to at most one group (no
photo id appears in two groups, nor twice in one), and every materialized
group id is shared by at least two photos — singleton groups are never
emitted, so ungrouped photos keep a null group id. -/
theorem C1_clustering_partition (f : String → Option Int) (db : List PhotoRow) (thr : ℝ)
    (gs : List (String × List String)) (h : clusterGroups f db thr = .ok gs) :
    partitionOK gs := by
  obtain ⟨h1, h2, _⟩ := outerLoop_spec h
  exact ⟨fun g hg => (h1 g hg).1, fun g hg => (h1 g hg).2.1, h2⟩

theorem C1_clustering_partition_witness :
    clusterGroups pf exDb (7/10) = .ok [("group_1", ["A", "B"]), ("group_2", ["C", "D"])] ∧
    partitionOK [("group_1", ["A", "B"]), ("group_2", ["C", "D"])] :=
  ⟨evalGroups07, C1_clustering_partition pf exDb (7/10) _ evalGroups07⟩

/-- Size of the largest group emitted by a pass. -/
def maxGroupSize (gs : List (String × List String)) : Nat :=
  (gs.map (fun g => g.2.length)).foldr max 0

/-- C2 as stated: raising the similarity threshold never increases the size of
any resulting group (so in particular the largest group never grows). -/
def thresholdMonotone : Prop :=
  ∀ (f : String → Option Int) (db : List PhotoRow) (t1 t2 : ℝ)
    (gs1 gs2 : List (String × List String)),
    t1 ≤ t2 → clusterGroups f db t1 = .ok gs1 → clusterGroups f db t2 = .ok gs2 →
    maxGroupSize gs2 ≤ maxGroupSize gs1

/-- C2 is false: on `exDb`, threshold 7/10 yields groups {A,B}, {C,D} (largest
size 2) but threshold 9/10 yields the single larger group {B,C,D} (size 3) —
photos freed by the stricter first seed enlarge a later group. -/
theorem C2_counterexample : ¬ thresholdMonotone := by
  intro h
  have h2 := h pf exDb (7/10) (9/10) _ _ (by norm_num) evalGroups07 evalGroups09
  norm_num [maxGroupSize] at h2

/-- Threshold antitonicity of a single seed scan, generalized over processed
sets: members found at the higher threshold were found at the lower one, up to
ids the low-threshold run had already absorbed (`A`). -/
theorem innerScan_anti {f : String → Option Int} {t1 t2 : ℝ} {tS : Int} {e1 : List ℝ}
    (hT : t1 ≤ t2) :
    ∀ {rest : List PhotoView} {q1 q2 A ms1 pr1 ms2 pr2 : List String},
      (∀ x ∈ q2, x ∈ q1) → (∀ x ∈ q1, x ∉ q2 → x ∈ A) →
      innerScan f t1 tS e1 rest q1 = .ok (ms1, pr1) →
      innerScan f t2 tS e1 rest q2 = .ok (ms2, pr2) →
      ∀ x ∈ ms2, x ∈ ms1 ∨ x ∈ A := by
  intro rest
  induction rest with
  | nil =>
    intro q1 q2 A ms1 pr1 ms2 pr2 _ _ _ h2
    rw [innerScan_nil] at h2
    obtain rfl : ([] : List String) = ms2 := by
      injection h2 with h'
      exact congrArg Prod.fst h'
    simp
  | cons p tl ih =>
    intro q1 q2 A ms1 pr1 ms2 pr2 hsub hA h1 h2
    by_cases hq2 : p.id ∈ q2
    · have hq1 : p.id ∈ q1 := hsub _ hq2
      rw [innerScan_cons_mem f t1 tS e1 tl hq1] at h1
      rw [innerScan_cons_mem f t2 tS e1 tl hq2] at h2
      exact ih hsub hA h1 h2
    · cases hp : parseTimeTwo f p.creation_time with
      | none =>
        rw [innerScan_cons_parseFail t2 tS e1 tl hq2 hp] at h2
        cases h2
      | some tP =>
        by_cases hq1 : p.id ∈ q1
        · have hpA : p.id ∈ A := hA _ hq1 hq2
          rw [innerScan_cons_mem f t1 tS e1 tl hq1] at h1
          by_cases hw : |tP - tS| > 3600
          · by_cases hlt : tS < tP
            · rw [innerScan_cons_break t2 e1 tl hq2 hp hw hlt] at h2
              obtain rfl : ([] : List String) = ms2 := by
                injection h2 with h'
                exact congrArg Prod.fst h'
              simp
            · rw [innerScan_cons_skipTime t2 e1 tl hq2 hp hw hlt] at h2
              exact ih hsub hA h1 h2
          · by_cases hc : cosine_similarity e1 p.embedding ≥ t2
            · rw [innerScan_cons_join tl hq2 hp hw hc] at h2
              cases hrec : innerScan f t2 tS e1 tl (p.id :: q2) with
              | error e => rw [hrec] at h2; cases h2
              | ok r =>
                obtain ⟨ms2', pr2'⟩ := r
                rw [hrec] at h2
                obtain ⟨rfl, rfl⟩ : p.id :: ms2' = ms2 ∧ pr2' = pr2 := by
                  injection h2 with h'
                  exact ⟨congrArg Prod.fst h', congrArg Prod.snd h'⟩
                have ih' := @ih q1 (p.id :: q2) A ms1 pr1 ms2' pr2'
                  (fun x hx => by
                    rcases List.mem_cons.mp hx with rfl | hx'
                    · exact hq1
                    · exact hsub _ hx')
                  (fun x hx hnx => hA x hx (fun hxq => hnx (List.mem_cons_of_mem _ hxq)))
                  h1 hrec
                intro x hx
                rcases List.mem_cons.mp hx with rfl | hx'
                · exact Or.inr hpA
                · exact ih' x hx'
            · rw [innerScan_cons_noSim tl hq2 hp hw hc] at h2
              exact ih hsub hA h1 h2
        · by_cases hw : |tP - tS| > 3600
          · by_cases hlt : tS < tP
            · rw [innerScan_cons_break t2 e1 tl hq2 hp hw hlt] at h2
              obtain rfl : ([] : List String) = ms2 := by
                injection h2 with h'
                exact congrArg Prod.fst h'
              simp
            · rw [innerScan_cons_skipTime t1 e1 tl hq1 hp hw hlt] at h1
              rw [innerScan_cons_skipTime t2 e1 tl hq2 hp hw hlt] at h2
              exact ih hsub hA h1 h2
          · by_cases hc2 : cosine_similarity e1 p.embedding ≥ t2
            · have hc1 : cosine_similarity e1 p.embedding ≥ t1 := le_trans hT hc2
              rw [innerScan_cons_join tl hq1 hp hw hc1] at h1
              rw [innerScan_cons_join tl hq2 hp hw hc2] at h2
              cases hrec1 : innerScan f t1 tS e1 tl (p.id :: q1) with
              | error e => rw [hrec1] at h1; cases h1
              | ok r1 =>
                obtain ⟨ms1', pr1'⟩ := r1
                rw [hrec1] at h1
                obtain ⟨rfl, rfl⟩ : ms1 = p.id :: ms1' ∧ pr1 = pr1' := by
                  constructor <;> injection h1 with h' <;> simp_all
                cases hrec2 : innerScan f t2 tS e1 tl (p.id :: q2) with
                | error e => rw [hrec2] at h2; cases h2
                | ok r2 =>
                  obtain ⟨ms2', pr2'⟩ := r2
                  rw [hrec2] at h2
                  obtain ⟨rfl, rfl⟩ : p.id :: ms2' = ms2 ∧ pr2' = pr2 := by
                    injection h2 with h'
                    exact ⟨congrArg Prod.fst h', congrArg Prod.snd h'⟩
                  have ih' := @ih (p.id :: q1) (p.id :: q2) A ms1' pr1 ms2' pr2'
                    (fun x hx => by
                      rcases List.mem_cons.mp hx with rfl | hx'
                      · exact List.mem_cons_self _ _
                      · exact List.mem_cons_of_mem _ (hsub _ hx'))
                    (fun x hx hnx => by
                      rcases List.mem_cons.mp hx with rfl | hx'
                      · exact absurd (List.mem_cons_self _ _) hnx
                      · exact hA x hx' (fun hxq => hnx (List.mem_cons_of_mem _ hxq)))
                    hrec1 hrec2
                  intro x hx
                  rcases List.mem_cons.mp hx with rfl | hx'
                  · exact Or.inl (List.mem_cons_self _ _)
                  · rcases ih' x hx' with hL | hR
                    · exact Or.inl (List.mem_cons_of_mem _ hL)
                    · exact Or.inr hR
            · by_cases hc1 : cosine_similarity e1 p.embedding ≥ t1
              · rw [innerScan_cons_join tl hq1 hp hw hc1] at h1
                rw [innerScan_cons_noSim tl hq2 hp hw hc2] at h2
                cases hrec1 : innerScan f t1 tS e1 tl (p.id :: q1) with
                | error e => rw [hrec1] at h1; cases h1
                | ok r1 =>
                  obtain ⟨ms1', pr1'⟩ := r1
                  rw [hrec1] at h1
                  obtain ⟨rfl, rfl⟩ : p.id :: ms1' = ms1 ∧ pr1' = pr1 := by
                    injection h1 with h'
                    exact ⟨congrArg Prod.fst h', congrArg Prod.snd h'⟩
                  have ih' := @ih (p.id :: q1) q2 (p.id :: A) ms1' pr1' ms2 pr2
                    (fun x hx => List.mem_cons_of_mem _ (hsub _ hx))
                    (fun x hx hnx => by
                      rcases List.mem_cons.mp hx with rfl | hx'
                      · exact List.mem_cons_self _ _
                      · exact List.mem_cons_of_mem _ (hA x hx' hnx))
                    hrec1 h2
                  intro x hx
                  rcases ih' x hx with hL | hR
                  · exact Or.inl (List.mem_cons_of_mem _ hL)
                  · rcases List.mem_cons.mp hR with rfl | hR'
                    · exact Or.inl (List.mem_cons_self _ _)
                    · exact Or.inr hR'
              · rw [innerScan_cons_noSim tl hq1 hp hw hc1] at h1
                rw [innerScan_cons_noSim tl hq2 hp hw hc2] at h2
                exact ih hsub hA h1 h2

/-- C2 amended: raising the threshold never increases the size of the group
collected around a FIXED seed from a fixed candidate list and processed set
(in particular a pass's first group). The original global claim fails because
photos rejected by one seed under the higher threshold remain available to
later seeds, which can therefore form larger groups (`C2_counterexample`). -/
theorem C2_amended_seed_antitone (f : String → Option Int) (t1 t2 : ℝ) (tS : Int)
    (e1 : List ℝ) (rest : List PhotoView) (q ms1 pr1 ms2 pr2 : List String)
    (hT : t1 ≤ t2)
    (h1 : innerScan f t1 tS e1 rest q = .ok (ms1, pr1))
    (h2 : innerScan f t2 tS e1 rest q = .ok (ms2, pr2)) :
    (∀ x ∈ ms2, x ∈ ms1) ∧ ms2.length ≤ ms1.length := by
  have hsub := @innerScan_anti f t1 t2 tS e1 hT rest q q [] ms1 pr1 ms2 pr2
    (fun x hx => hx) (fun x hx hnx => absurd hx hnx) h1 h2
  have hss : ∀ x ∈ ms2, x ∈ ms1 := fun x hx =>
    (hsub x hx).resolve_right (List.not_mem_nil x)
  refine ⟨hss, ?_⟩
  have hnd2 : ms2.Nodup := (innerScan_spec h2).2.1
  calc ms2.length = ms2.toFinset.card := (List.toFinset_card_of_nodup hnd2).symm
    _ ≤ ms1.toFinset.card := Finset.card_le_card (fun x hx =>
        List.mem_toFinset.mpr (hss x (List.mem_toFinset.mp hx)))
    _ ≤ ms1.length := ms1.toFinset_card_le

theorem C2_amended_seed_antitone_witness :
    (7/10 : ℝ) ≤ 9/10 ∧
    ((∀ x ∈ ([] : List String), x ∈ ["B"]) ∧
      List.length ([] : List String) ≤ ["B"].length) :=
  ⟨by norm_num,
    C2_amended_seed_antitone pf (7/10) (9/10) 0 vA.embedding [vB, vC, vD]
      ["A"] _ _ _ _ (by norm_num) scanA07 scanA09⟩

open Classical in
/-- C8: (1) every member of an emitted group has a parsed timestamp within the
60-minute window of the group's seed, boundary inclusive (`≤ 3600`); (2) a
candidate exactly at the window edge is still eligible — with time distance
`≤ 3600` the scan tests similarity and continues into the remaining
candidates instead of stopping; (3) the forward scan stops exactly when a
strictly later candidate strictly exceeds the window. -/
theorem C8_window_boundary (f : String → Option Int) (thr : ℝ) :
    (∀ (db : List PhotoRow) (gs : List (String × List String)),
      clusterGroups f db thr = .ok gs →
        ∀ g ∈ gs, groupWindowOK f (photosWithEmbeddings db) g) ∧
    (∀ (t1 t2 : Int) (e1 : List ℝ) (p : PhotoView) (tl : List PhotoView) (q : List String),
      p.id ∉ q → parseTimeTwo f p.creation_time = some t2 → |t2 - t1| ≤ 3600 →
        innerScan f thr t1 e1 (p :: tl) q =
          if cosine_similarity e1 p.embedding ≥ thr then
            match innerScan f thr t1 e1 tl (p.id :: q) with
            | .error e => .error e
            | .ok (ms, pr) => .ok (p.id :: ms, pr)
          else innerScan f thr t1 e1 tl q) ∧
    (∀ (t1 t2 : Int) (e1 : List ℝ) (p : PhotoView) (tl : List PhotoView) (q : List String),
      p.id ∉ q → parseTimeTwo f p.creation_time = some t2 → 3600 < |t2 - t1| → t1 < t2 →
        innerScan f thr t1 e1 (p :: tl) q = .ok ([], q)) := by
  refine ⟨?_, ?_, ?_⟩
  · intro db gs h
    exact (outerLoop_spec h).2.2
  · intro t1 t2 e1 p tl q hq hp hw
    by_cases hc : cosine_similarity e1 p.embedding ≥ thr
    · rw [innerScan_cons_join tl hq hp (not_lt.mpr hw) hc, if_pos hc]
    · rw [innerScan_cons_noSim tl hq hp (not_lt.mpr hw) hc, if_neg hc]
  · intro t1 t2 e1 p tl q hq hp hw hlt
    exact innerScan_cons_break thr e1 tl hq hp hw hlt

theorem C8_window_boundary_witness :
    groupWindowOK pf (photosWithEmbeddings exDb) ("group_1", ["A", "B"]) :=
  (C8_window_boundary pf (7/10)).1 exDb _ evalGroups07 _ (by simp)

/-! ### C6: a malformed timestamp aborts the whole pass -/

noncomputable def rowBad : PhotoRow :=
  ⟨"X", some [1, 0], "BAD", "embedded", none, none, false⟩

noncomputable def badDb : List PhotoRow := [rowA, rowBad]

/-- C6 fails on the code: with two embedded photos one of which has an
unparseable timestamp (`pf "BAD" = none`, both with and without the
`Z → +00:00` substitution, modelling `datetime.fromisoformat` raising twice),
the whole pass raises instead of skipping that photo — nothing is committed
for the remaining photos. The second conjunct shows the same pass succeeds
once every timestamp parses. -/
theorem C6_bad_timestamp_aborts :
    group_similar_photos pf badDb (7/10) = .error () ∧
    group_similar_photos pf exDb (7/10) =
      .ok (applyGroups [("group_1", ["A", "B"]), ("group_2", ["C", "D"])]
        (resetEmbedded exDb)) := by
  constructor
  · rfl
  · have hlen : ¬ (photosWithEmbeddings exDb).length < 2 := by
      rw [exDb_views]; norm_num
    rw [group_similar_photos, if_neg hlen, evalGroups07]

/-! ### C9: the reset clears only photos with status 'embedded' -/

/-- All photo ids assigned to some group by the pass. -/
def allMembers (gs : List (String × List String)) : List String :=
  gs.foldr (fun g acc => g.2 ++ acc) []

/-- The per-row effect of the group updates of one pass. -/
def rowGroups (gs : List (String × List String)) (r : PhotoRow) : PhotoRow :=
  gs.foldl (fun s g =>
    if s.id ∈ g.2 then { s with group_id := some g.1, status := "grouped" } else s) r

/-- The per-row effect of the reset. -/
def rowReset (r : PhotoRow) : PhotoRow :=
  if r.status = "embedded" then { r with group_id := none } else r

theorem applyGroup_map (gid : String) (members : List String) (db : List PhotoRow) :
    applyGroup gid members db = db.map (fun r =>
      if r.id ∈ members then { r with group_id := some gid, status := "grouped" } else r) :=
  rfl

theorem applyGroups_map (gs : List (String × List String)) :
    ∀ db : List PhotoRow, applyGroups gs db = db.map (rowGroups gs) := by
  induction gs with
  | nil => intro db; exact (List.map_id' db).symm
  | cons g gs ih =>
    intro db
    show applyGroups gs (applyGroup g.1 g.2 db) = _
    rw [ih, applyGroup_map, List.map_map]
    rfl

theorem rowGroups_id (gs : List (String × List String)) :
    ∀ r : PhotoRow, (rowGroups gs r).id = r.id := by
  induction gs with
  | nil => intro r; rfl
  | cons g gs ih =>
    intro r
    show (rowGroups gs (if r.id ∈ g.2 then _ else r)).id = r.id
    rw [ih]
    split <;> rfl

theorem rowGroups_not_member (gs : List (String × List String)) :
    ∀ r : PhotoRow, (∀ g ∈ gs, r.id ∉ g.2) → rowGroups gs r = r := by
  induction gs with
  | nil => intro r _; rfl
  | cons g gs ih =>
    intro r h
    show rowGroups gs (if r.id ∈ g.2 then _ else r) = r
    rw [if_neg (h g (List.mem_cons_self _ _))]
    exact ih r (fun g' hg' => h g' (List.mem_cons_of_mem _ hg'))

theorem forall2_map {α β : Type _} (φ : α → β) (P : α → β → Prop) :
    ∀ l : List α, (∀ r ∈ l, P r (φ r)) → List.Forall₂ P l (l.map φ) := by
  intro l
  induction l with
  | nil => intro _; simp
  | cons a l ih =>
    intro h
    exact List.Forall₂.cons (h a (List.mem_cons_self _ _))
      (ih (fun r hr => h r (List.mem_cons_of_mem _ hr)))

theorem mem_allMembers {x : String} :
    ∀ {gs : List (String × List String)}, x ∈ allMembers gs ↔ ∃ g ∈ gs, x ∈ g.2 := by
  intro gs
  induction gs with
  | nil => simp [allMembers]
  | cons g gs ih =>
    show x ∈ g.2 ++ allMembers gs ↔ _
    rw [List.mem_append, ih]
    simp only [List.mem_cons]
    constructor
    · rintro (h | ⟨g', hg', hx⟩)
      · exact ⟨g, Or.inl rfl, h⟩
      · exact ⟨g', Or.inr hg', hx⟩
    · rintro ⟨g', rfl | hg', hx⟩
      · exact Or.inl hx
      · exact Or.inr ⟨g', hg', hx⟩

/-- C9: the pass clears group assignments only for photos whose status is
`'embedded'`. Row by row: a photo not assigned to any new group ends with a
null group id if its status was `'embedded'`, but keeps its previous group id
(and status) otherwise — so a `'grouped'` photo from an earlier pass that is
not regrouped retains its stale group id, and the no-materialized-singletons
invariant is only guaranteed for photos that started the pass ungrouped. -/
theorem C9_reset_scope (f : String → Option Int) (db : List PhotoRow) (thr : ℝ)
    (gs : List (String × List String)) (db' : List PhotoRow)
    (hlen : ¬ (photosWithEmbeddings db).length < 2)
    (hgs : clusterGroups f db thr = .ok gs)
    (hrun : group_similar_photos f db thr = .ok db') :
    List.Forall₂ (fun r r' : PhotoRow =>
      r.id ∉ allMembers gs →
        (r.status = "embedded" → r'.group_id = none ∧ r'.status = r.status) ∧
        (r.status ≠ "embedded" → r'.group_id = r.group_id ∧ r'.status = r.status))
      db db' := by
  have hdb' : db' = applyGroups gs (resetEmbedded db) := by
    rw [group_similar_photos, if_neg hlen, hgs] at hrun
    injection hrun with h'
    exact h'.symm
  subst hdb'
  rw [applyGroups_map, resetEmbedded, List.map_map]
  apply forall2_map
  intro r _ hnm
  have hnot : ∀ g ∈ gs, r.id ∉ g.2 := by
    intro g hg hx
    exact hnm (mem_allMembers.mpr ⟨g, hg, hx⟩)
  simp only [Function.comp_apply]
  by_cases hst : r.status = "embedded"
  · rw [if_pos hst, rowGroups_not_member gs { r with group_id := none } hnot]
    exact ⟨fun _ => ⟨rfl, rfl⟩, fun h => absurd hst h⟩
  · rw [if_neg hst, rowGroups_not_member gs r hnot]
    exact ⟨fun h => absurd h hst, fun _ => ⟨rfl, rfl⟩⟩

def rowG : PhotoRow := ⟨"G", none, "T0", "grouped", some "group_7", none, false⟩

def rowP : PhotoRow := ⟨"P", some [], "T0", "embedded", some "stale", none, false⟩

def rowQ : PhotoRow := ⟨"Q", some [], "T9", "embedded", none, none, false⟩

def db9 : List PhotoRow := [rowG, rowP, rowQ]

theorem C9_reset_scope_witness :
    List.Forall₂ (fun r r' : PhotoRow =>
      r.id ∉ allMembers [] →
        (r.status = "embedded" → r'.group_id = none ∧ r'.status = r.status) ∧
        (r.status ≠ "embedded" → r'.group_id = r.group_id ∧ r'.status = r.status))
      db9 (applyGroups [] (resetEmbedded db9)) :=
  C9_reset_scope pf db9 (1/2) [] _ (by decide) rfl rfl

/-! ### C7: the job-status update of `check_batch_status` (src/main.py:898-919) -/

/-- The `status_mapping` dict lookup with default `'unknown'`. -/
def mapStatus (s : String) : String :=
  if s = "JOB_STATE_PENDING" then "running"
  else if s = "JOB_STATE_RUNNING" then "running"
  else if s = "JOB_STATE_SUCCEEDED" then "completed"
  else if s = "JOB_STATE_FAILED" then "failed"
  else if s = "JOB_STATE_CANCELLED" then "cancelled"
  else "unknown"

/-- One status-check step for one job: map the external report, then apply the
guard `if not (current_status == 'running' and new_status == 'pending')`
before writing the new status (src/main.py:907-919). -/
def updateStatus (current report : String) : String :=
  let new := mapStatus report
  if current = "running" ∧ new = "pending" then current else new

/-- C7 fails on the code at its third conjunct: (i) a `pending` report after
`running` does not downgrade (pending is mapped to running), and (ii) no
report ever maps a job back to `created`; but (iii) a job in the terminal
`completed` status is moved back to `running` by a status check whose
external report is `JOB_STATE_RUNNING` — the query selects all jobs, not just
running ones, and the write has no terminal-state guard. The last conjunct
shows the anti-downgrade guard is dead code: the mapped status is never
`pending`, so the guard at src/main.py:914 can never fire. -/
theorem C7_terminal_status_overwritten :
    updateStatus "running" "JOB_STATE_PENDING" = "running" ∧
    (∀ report, updateStatus "running" report ≠ "created") ∧
    updateStatus "completed" "JOB_STATE_RUNNING" = "running" ∧
    (∀ report, mapStatus report ≠ "pending") := by
  refine ⟨rfl, ?_, rfl, ?_⟩
  · intro report
    show (if ("running" : String) = "running" ∧ mapStatus report = "pending"
      then "running" else mapStatus report) ≠ "created"
    unfold mapStatus
    split_ifs <;> simp_all
  · intro report
    unfold mapStatus
    split_ifs <;> simp_all

/-! ### ResultReconciler: the per-line loop of `check_batch_status`
(src/main.py:960-999) -/

/-- One entry of a parsed `deletions` array, as accessed by the code
(`deletion["id"]`, `deletion["reason"]`). -/
structure Deletion where
  id : String
  reason : String

/-- `response.candidates[0]` of a result line: its `finishReason` key (`none`
models a missing key, whose `KeyError` skips the line) and the texts of
`content.parts`. -/
structure Candidate where
  finishReason : Option String
  parts : List String

/-- One line of the downloaded result file after `json.loads`:
`invalid` = JSON parse error, `other` = valid JSON without
`response`/`candidates` keys, `resp c` = a response record. -/
inductive JsonLine where
  | invalid : JsonLine
  | other : JsonLine
  | resp : Candidate → JsonLine

/-- `UPDATE photos SET ai_suggestion_reason = ?, is_marked_for_deletion = TRUE
WHERE id = ?` (src/main.py:984-988). -/
def applyDeletion (d : Deletion) (db : List PhotoRow) : List PhotoRow :=
  db.map fun r =>
    if r.id = d.id then
      { r with ai_suggestion_reason := some d.reason, is_marked_for_deletion := true }
    else r

/-- The inner `for deletion in deletions` loop: apply each entry and bump
`processed_count` once per entry (src/main.py:983-989). -/
def applyDeletions (dels : List Deletion) (st : List PhotoRow × Nat) : List PhotoRow × Nat :=
  dels.foldl (fun s d => (applyDeletion d s.1, s.2 + 1)) st

/-- Processing of one result line (src/main.py:960-993): malformed lines and
lines without `response`/`candidates` are skipped; a missing `finishReason`
raises `KeyError`, caught and skipped; a `MAX_TOKENS` finish reason skips the
record; empty `parts` skips; an inner JSON parse failure (modelled by the
abstract parser `parseAI` returning `none`) is caught and skipped; otherwise
the parsed `deletions` are applied. -/
def processLine (parseAI : String → Option (List Deletion)) (st : List PhotoRow × Nat) :
    JsonLine → List PhotoRow × Nat
  | .invalid => st
  | .other => st
  | .resp c =>
    match c.finishReason with
    | none => st
    | some fr =>
      if fr = "MAX_TOKENS" then st
      else
        match c.parts with
        | [] => st
        | text :: _ =>
          match parseAI text with
          | none => st
          | some dels => applyDeletions dels st

/-- The whole reconciliation of one downloaded result payload: fold the
per-line processing over the split lines, starting from `processed_count = 0`.
Returns the updated photos table and the final `processed_count`. -/
def processResults (parseAI : String → Option (List Deletion)) (lines : List JsonLine)
    (db : List PhotoRow) : List PhotoRow × Nat :=
  lines.foldl (processLine parseAI) (db, 0)

/-- Per-row effect of one deletion entry. -/
def stepRow (d : Deletion) (r : PhotoRow) : PhotoRow :=
  if r.id = d.id then
    { r with ai_suggestion_reason := some d.reason, is_marked_for_deletion := true }
  else r

/-- Per-row effect of a sequence of deletion entries. -/
def rowApply (dels : List Deletion) (r : PhotoRow) : PhotoRow :=
  dels.foldl (fun s d => stepRow d s) r

/-- Table-level effect of a sequence of deletion entries. -/
def applyAll (dels : List Deletion) (db : List PhotoRow) : List PhotoRow :=
  dels.foldl (fun d del => applyDeletion del d) db

/-- The deletion entries a line contributes (mirrors `processLine`). -/
def lineDels (parseAI : String → Option (List Deletion)) : JsonLine → List Deletion
  | .invalid => []
  | .other => []
  | .resp c =>
    match c.finishReason with
    | none => []
    | some fr =>
      if fr = "MAX_TOKENS" then []
      else
        match c.parts with
        | [] => []
        | text :: _ =>
          match parseAI text with
          | none => []
          | some dels => dels

/-- All deletion entries of a payload, in processing order. -/
def allDels (parseAI : String → Option (List Deletion)) : List JsonLine → List Deletion
  | [] => []
  | l :: ls => lineDels parseAI l ++ allDels parseAI ls

theorem applyAll_map (dels : List Deletion) :
    ∀ db : List PhotoRow, applyAll dels db = db.map (rowApply dels) := by
  induction dels with
  | nil => intro db; exact (List.map_id' db).symm
  | cons d ds ih =>
    intro db
    show applyAll ds (applyDeletion d db) = _
    rw [ih, applyDeletion, List.map_map]
    rfl

theorem applyAll_append (xs ys : List Deletion) (db : List PhotoRow) :
    applyAll (xs ++ ys) db = applyAll ys (applyAll xs db) :=
  List.foldl_append _ _ _ _

theorem applyDeletions_spec (dels : List Deletion) :
    ∀ st : List PhotoRow × Nat,
      applyDeletions dels st = (applyAll dels st.1, st.2 + dels.length) := by
  induction dels with
  | nil => intro st; simp [applyDeletions, applyAll]
  | cons d ds ih =>
    intro st
    show applyDeletions ds (applyDeletion d st.1, st.2 + 1) = _
    rw [ih]
    show (applyAll ds (applyDeletion d st.1), st.2 + 1 + ds.length) = _
    refine congrArg₂ Prod.mk rfl ?_
    simp [List.length_cons]
    omega

theorem processLine_spec (parseAI : String → Option (List Deletion))
    (st : List PhotoRow × Nat) (l : JsonLine) :
    processLine parseAI st l = (applyAll (lineDels parseAI l) st.1,
      st.2 + (lineDels parseAI l).length) := by
  cases l with
  | invalid => simp [processLine, lineDels, applyAll]
  | other => simp [processLine, lineDels, applyAll]
  | resp c =>
    show (match c.finishReason with
      | none => st
      | some fr =>
        if fr = "MAX_TOKENS" then st
        else
          match c.parts with
          | [] => st
          | text :: _ =>
            match parseAI text with
            | none => st
            | some dels => applyDeletions dels st) = _
    cases hfr : c.finishReason with
    | none => simp [lineDels, hfr, applyAll]
    | some fr =>
      by_cases hmt : fr = "MAX_TOKENS"
      · simp [lineDels, hfr, hmt, applyAll]
      · cases hparts : c.parts with
        | nil => simp [lineDels, hfr, hmt, hparts, applyAll]
        | cons text rest =>
          cases hai : parseAI text with
          | none => simp [lineDels, hfr, hmt, hparts, hai, applyAll]
          | some dels =>
            simp only [lineDels, hfr, hmt, hparts, hai, if_neg hmt]
            exact applyDeletions_spec dels st

theorem processResults_spec (parseAI : String → Option (List Deletion)) :
    ∀ (lines : List JsonLine) (st : List PhotoRow × Nat),
      lines.foldl (processLine parseAI) st =
        (applyAll (allDels parseAI lines) st.1, st.2 + (allDels parseAI lines).length) := by
  intro lines
  induction lines with
  | nil => intro st; simp [allDels, applyAll]
  | cons l ls ih =>
    intro st
    rw [List.foldl_cons, processLine_spec, ih]
    show (applyAll (allDels parseAI ls) (applyAll (lineDels parseAI l) st.1), _) = _
    rw [allDels, applyAll_append]
    refine congrArg₂ Prod.mk rfl ?_
    simp [List.length_append]
    omega

theorem stepRow_id (d : Deletion) (r : PhotoRow) : (stepRow d r).id = r.id := by
  unfold stepRow
  split <;> rfl

theorem rowApply_id (dels : List Deletion) : ∀ r : PhotoRow, (rowApply dels r).id = r.id := by
  induction dels with
  | nil => intro r; rfl
  | cons d ds ih =>
    intro r
    show (rowApply ds (stepRow d r)).id = r.id
    rw [ih, stepRow_id]

/-- The reason written last for a given photo id by a deletion sequence. -/
def lastReason (dels : List Deletion) (i : String) : Option String :=
  dels.foldl (fun acc d => if i = d.id then some d.reason else acc) none

theorem lastReason_shift (i : String) :
    ∀ (dels : List Deletion) (a : Option String),
      dels.foldl (fun acc d => if i = d.id then some d.reason else acc) a =
        match lastReason dels i with
        | none => a
        | some s => some s := by
  intro dels
  induction dels with
  | nil => intro a; rfl
  | cons d ds ih =>
    intro a
    show ds.foldl _ (if i = d.id then some d.reason else a) = _
    by_cases h : i = d.id
    · rw [if_pos h]
      show _ = match lastReason (d :: ds) i with | none => a | some s => some s
      have hl : lastReason (d :: ds) i =
          ds.foldl (fun acc d => if i = d.id then some d.reason else acc) (some d.reason) := by
        show ds.foldl _ (if i = d.id then some d.reason else none) = _
        rw [if_pos h]
      rw [hl, ih (some d.reason)]
      cases lastReason ds i <;> rfl
    · rw [if_neg h]
      have hl : lastReason (d :: ds) i = lastReason ds i := by
        show ds.foldl _ (if i = d.id then some d.reason else none) = _
        rw [if_neg h]
        rfl
      rw [hl, ih a]

theorem rowApply_eq (dels : List Deletion) :
    ∀ r : PhotoRow, rowApply dels r =
      match lastReason dels r.id with
      | none => r
      | some s => { r with ai_suggestion_reason := some s, is_marked_for_deletion := true } := by
  induction dels with
  | nil => intro r; rfl
  | cons d ds ih =>
    intro r
    show rowApply ds (stepRow d r) = _
    by_cases h : r.id = d.id
    · have hst : stepRow d r =
          { r with ai_suggestion_reason := some d.reason, is_marked_for_deletion := true } := by
        unfold stepRow
        rw [if_pos h]
      rw [hst, ih]
      have hid : ({ r with ai_suggestion_reason := some d.reason, is_marked_for_deletion := true } : PhotoRow).id = r.id := rfl
      rw [hid]
      have hl : lastReason (d :: ds) r.id =
          ds.foldl (fun acc d => if r.id = d.id then some d.reason else acc)
            (some d.reason) := by
        show ds.foldl _ (if r.id = d.id then some d.reason else none) = _
        rw [if_pos h]
      rw [hl, lastReason_shift]
      cases lastReason ds r.id <;> rfl
    · have hst : stepRow d r = r := by
        unfold stepRow
        rw [if_neg h]
      have hl : lastReason (d :: ds) r.id = lastReason ds r.id := by
        show ds.foldl _ (if r.id = d.id then some d.reason else none) = _
        rw [if_neg h]
        rfl
      rw [hst, ih, hl]

theorem rowApply_idem (dels : List Deletion) (r : PhotoRow) :
    rowApply dels (rowApply dels r) = rowApply dels r := by
  rw [rowApply_eq dels r]
  cases hlast : lastReason dels r.id with
  | none => rw [rowApply_eq, hlast]
  | some s =>
    rw [rowApply_eq]
    have hid : ({ r with ai_suggestion_reason := some s, is_marked_for_deletion := true } : PhotoRow).id = r.id := rfl
    rw [hid, hlast]

/-- C4: running the reconciliation loop a second time on the same result lines
leaves every photo's suggestion reason and deletion-marked flag unchanged —
re-applying the same `UPDATE` sequence writes the same values. -/
theorem C4_reconcile_idempotent (parseAI : String → Option (List Deletion))
    (lines : List JsonLine) (db : List PhotoRow) :
    (processResults parseAI lines (processResults parseAI lines db).1).1 =
      (processResults parseAI lines db).1 := by
  have hfst : ∀ db0 : List PhotoRow,
      (processResults parseAI lines db0).1 = applyAll (allDels parseAI lines) db0 := by
    intro db0
    show (lines.foldl (processLine parseAI) (db0, 0)).1 = _
    rw [processResults_spec]
  simp only [hfst]
  simp only [applyAll_map]
  rw [List.map_map]
  exact List.map_congr_left (fun r _ => rowApply_idem _ r)

/-- C5: a response record whose candidate reports `finishReason = MAX_TOKENS`
is skipped whole — removing it from the payload changes neither the final
photo table nor the processed count, so it contributes zero suggestions and
the processing of every sibling record is unchanged. -/
theorem C5_truncated_record_skipped (parseAI : String → Option (List Deletion))
    (pre post : List JsonLine) (db : List PhotoRow) (c : Candidate)
    (h : c.finishReason = some "MAX_TOKENS") :
    processResults parseAI (pre ++ JsonLine.resp c :: post) db =
      processResults parseAI (pre ++ post) db := by
  have hline : ∀ st : List PhotoRow × Nat, processLine parseAI st (.resp c) = st := by
    intro st
    show (match c.finishReason with
      | none => st
      | some fr => if fr = "MAX_TOKENS" then st else _) = st
    rw [h]
    simp
  show (pre ++ JsonLine.resp c :: post).foldl (processLine parseAI) (db, 0) = _
  rw [List.foldl_append, List.foldl_cons, hline, ← List.foldl_append]
  rfl

def pAI5 (s : String) : Option (List Deletion) :=
  if s = "J" then some [⟨"p1", "near-duplicate"⟩] else none

def db5 : List PhotoRow := [⟨"p1", none, "T0", "embedded", none, none, false⟩]

def cT5 : Candidate := ⟨some "MAX_TOKENS", ["J"]⟩

theorem C5_truncated_record_skipped_witness :
    cT5.finishReason = some "MAX_TOKENS" ∧
    processResults pAI5 ([JsonLine.resp ⟨some "STOP", ["J"]⟩] ++ JsonLine.resp cT5 ::
        [JsonLine.resp ⟨some "STOP", ["J"]⟩]) db5 =
      processResults pAI5 ([JsonLine.resp ⟨some "STOP", ["J"]⟩] ++
        [JsonLine.resp ⟨some "STOP", ["J"]⟩]) db5 :=
  ⟨rfl, C5_truncated_record_skipped pAI5 _ _ db5 cT5 rfl⟩

/-- C10: a deletions entry whose photo id matches no stored photo is silently
absorbed: the `UPDATE` affects zero rows and raises nothing, the final photo
table is exactly what it would be without the entry, every other entry is
applied normally, and the entry is still counted in `processed_count`. -/
theorem C10_unknown_id_entry (d : Deletion) (db : List PhotoRow)
    (pre post : List Deletion) (n : Nat) (h : ∀ r ∈ db, r.id ≠ d.id) :
    (applyDeletions (pre ++ d :: post) (db, n)).1 =
      (applyDeletions (pre ++ post) (db, n)).1 ∧
    (applyDeletions (pre ++ d :: post) (db, n)).2 = n + pre.length + 1 + post.length := by
  rw [applyDeletions_spec, applyDeletions_spec]
  constructor
  · show applyAll (pre ++ d :: post) db = applyAll (pre ++ post) db
    rw [applyAll_append, applyAll_append]
    show applyAll (d :: post) _ = _
    have hskip : applyDeletion d (applyAll pre db) = applyAll pre db := by
      rw [applyAll_map, applyDeletion, List.map_map]
      refine List.map_congr_left (fun r hr => ?_)
      show (if (rowApply pre r).id = d.id then _ else rowApply pre r) = rowApply pre r
      rw [rowApply_id, if_neg (h r hr)]
    show applyAll post (applyDeletion d (applyAll pre db)) = _
    rw [hskip]
  · show n + (pre ++ d :: post).length = _
    simp [List.length_append]
    omega

def db10 : List PhotoRow := [⟨"p1", none, "T0", "embedded", none, none, false⟩]

theorem C10_unknown_id_entry_witness :
    (∀ r ∈ db10, r.id ≠ "ghost") ∧
    ((applyDeletions ([⟨"p1", "a"⟩] ++ ⟨"ghost", "x"⟩ :: [⟨"p1", "b"⟩]) (db10, 0)).1 =
        (applyDeletions ([⟨"p1", "a"⟩] ++ [⟨"p1", "b"⟩]) (db10, 0)).1 ∧
      (applyDeletions ([⟨"p1", "a"⟩] ++ ⟨"ghost", "x"⟩ :: [⟨"p1", "b"⟩]) (db10, 0)).2 =
        0 + 1 + 1 + 1) :=
  ⟨by decide, C10_unknown_id_entry ⟨"ghost", "x"⟩ db10 [⟨"p1", "a"⟩] [⟨"p1", "b"⟩] 0
    (by decide)⟩

/-! ### RequestBuilder: `_create_batch_jsonl` from
`src/backend/gemini_processor.py:164-240` -/

/-- One entry of `photo_metadata`. -/
structure Meta where
  id : String
  filename : String
  group_id : Option String

/-- `photo.get("group_id", "ungrouped")`. -/
def metaKey (p : Meta) : String := p.group_id.getD "ungrouped"

/-- Insertion into the insertion-ordered `photo_groups` dict: append to an
existing key's list, else append a new key at the end. -/
def insertMeta (p : Meta) : List (String × List Meta) → List (String × List Meta)
  | [] => [(metaKey p, [p])]
  | (k, ps) :: tl =>
    if metaKey p = k then (k, ps ++ [p]) :: tl else (k, ps) :: insertMeta p tl

/-- The `photo_groups` dict of `_create_batch_jsonl`, keyed by group id with
insertion order preserved (Python dicts are insertion-ordered). -/
def groupByKey (ps : List Meta) : List (String × List Meta) :=
  ps.foldl (fun acc p => insertMeta p acc) []

/-- `MAX_PHOTOS_PER_GROUP` (gemini_processor.py:21). -/
def MAX_PHOTOS_PER_GROUP : Nat := 100

/-- The parts of one batch request that the claims are about: the group id it
was built for, the ids of the member photos whose file exists, and the photo
count named in the trailing instruction (the whole group's count). -/
structure BatchRequest where
  group_id : String
  photo_ids : List String
  photo_count : Nat

/-- The request-emission loop (gemini_processor.py:178-233): skip groups with
at most one photo, skip (whole, with a warning) groups larger than
`MAX_PHOTOS_PER_GROUP`, otherwise emit exactly one self-contained record;
`exs` models `photo_path.exists()`. -/
def buildRequests (exs : String → Bool) : List (String × List Meta) → List BatchRequest
  | [] => []
  | (gid, gps) :: tl =>
    if gps.length ≤ 1 then buildRequests exs tl
    else if gps.length > MAX_PHOTOS_PER_GROUP then buildRequests exs tl
    else ⟨gid, (gps.filter (fun p => exs p.filename)).map (fun p => p.id), gps.length⟩ ::
      buildRequests exs tl

/-- `_create_batch_jsonl`: group the metadata, then emit the request records. -/
def createBatchJsonl (exs : String → Bool) (metadata : List Meta) : List BatchRequest :=
  buildRequests exs (groupByKey metadata)

theorem buildRequests_provenance (exs : String → Bool) :
    ∀ gs : List (String × List Meta), ∀ r ∈ buildRequests exs gs,
      ∃ g ∈ gs, r.group_id = g.1 ∧ 2 ≤ g.2.length ∧ g.2.length ≤ MAX_PHOTOS_PER_GROUP := by
  intro gs
  induction gs with
  | nil => intro r hr; cases hr
  | cons g tl ih =>
    obtain ⟨gid, gps⟩ := g
    intro r hr
    by_cases h1 : gps.length ≤ 1
    · rw [show buildRequests exs ((gid, gps) :: tl) = buildRequests exs tl by
        rw [buildRequests, if_pos h1]] at hr
      obtain ⟨g', hg', hrest⟩ := ih r hr
      exact ⟨g', List.mem_cons_of_mem _ hg', hrest⟩
    · by_cases h2 : gps.length > MAX_PHOTOS_PER_GROUP
      · rw [show buildRequests exs ((gid, gps) :: tl) = buildRequests exs tl by
          rw [buildRequests, if_neg h1, if_pos h2]] at hr
        obtain ⟨g', hg', hrest⟩ := ih r hr
        exact ⟨g', List.mem_cons_of_mem _ hg', hrest⟩
      · rw [show buildRequests exs ((gid, gps) :: tl) =
            ⟨gid, (gps.filter (fun p => exs p.filename)).map (fun p => p.id), gps.length⟩ ::
              buildRequests exs tl by
          rw [buildRequests, if_neg h1, if_neg h2]] at hr
        rcases List.mem_cons.mp hr with rfl | hr'
        · exact ⟨(gid, gps), List.mem_cons_self _ _, rfl,
            by show 2 ≤ gps.length; omega, by show gps.length ≤ MAX_PHOTOS_PER_GROUP; omega⟩
        · obtain ⟨g', hg', hrest⟩ := ih r hr'
          exact ⟨g', List.mem_cons_of_mem _ hg', hrest⟩

theorem buildRequests_count_one (exs : String → Bool) :
    ∀ gs : List (String × List Meta), (gs.map (fun g => g.1)).Nodup →
      ∀ g ∈ gs, 2 ≤ g.2.length → g.2.length ≤ MAX_PHOTOS_PER_GROUP →
        ((buildRequests exs gs).filter (fun r => r.group_id == g.1)).length = 1 := by
  intro gs
  induction gs with
  | nil => intro _ g hg; cases hg
  | cons ghead tl ih =>
    obtain ⟨gid, gps⟩ := ghead
    intro hnd g hg hlo hhi
    have hnd' : (tl.map (fun g => g.1)).Nodup := (List.nodup_cons.mp hnd).2
    have hkey : gid ∉ tl.map (fun g => g.1) := by
      simpa using (List.nodup_cons.mp hnd).1
    rcases List.mem_cons.mp hg with rfl | hg'
    · have h1 : ¬ gps.length ≤ 1 := by simp only at hlo; omega
      have h2 : ¬ gps.length > MAX_PHOTOS_PER_GROUP := by simp only at hhi; omega
      rw [show buildRequests exs ((gid, gps) :: tl) =
          ⟨gid, (gps.filter (fun p => exs p.filename)).map (fun p => p.id), gps.length⟩ ::
            buildRequests exs tl by
        rw [buildRequests, if_neg h1, if_neg h2]]
      rw [List.filter_cons]
      have hb : ((⟨gid, (gps.filter (fun p => exs p.filename)).map (fun p => p.id),
          gps.length⟩ : BatchRequest).group_id == gid) = true := by
        simp
      rw [if_pos hb]
      have hzero : ((buildRequests exs tl).filter (fun r => r.group_id == gid)).length = 0 := by
        rw [List.length_eq_zero, List.filter_eq_nil_iff]
        intro r hr
        obtain ⟨g', hg', hid, _⟩ := buildRequests_provenance exs tl r hr
        have : g'.1 ∈ tl.map (fun g => g.1) := List.mem_map_of_mem _ hg'
        simp only [beq_iff_eq]
        intro heq
        exact hkey (by rw [← hid, heq] at this; exact this)
      simp [hzero]
    · have hne : g.1 ≠ gid := by
        intro heq
        have : g.1 ∈ tl.map (fun g => g.1) := List.mem_map_of_mem _ hg'
        rw [heq] at this
        exact hkey this
      by_cases h1 : gps.length ≤ 1
      · rw [show buildRequests exs ((gid, gps) :: tl) = buildRequests exs tl by
          rw [buildRequests, if_pos h1]]
        exact ih hnd' g hg' hlo hhi
      · by_cases h2 : gps.length > MAX_PHOTOS_PER_GROUP
        · rw [show buildRequests exs ((gid, gps) :: tl) = buildRequests exs tl by
            rw [buildRequests, if_neg h1, if_pos h2]]
          exact ih hnd' g hg' hlo hhi
        · rw [show buildRequests exs ((gid, gps) :: tl) =
              ⟨gid, (gps.filter (fun p => exs p.filename)).map (fun p => p.id), gps.length⟩ ::
                buildRequests exs tl by
            rw [buildRequests, if_neg h1, if_neg h2]]
          rw [List.filter_cons]
          have hb : ((⟨gid, (gps.filter (fun p => exs p.filename)).map (fun p => p.id),
              gps.length⟩ : BatchRequest).group_id == g.1) = false := by
            simp [hne.symm]
          rw [if_neg (by simp [hb])]
          exact ih hnd' g hg' hlo hhi

theorem insertMeta_keys (p : Meta) :
    ∀ acc : List (String × List Meta),
      (insertMeta p acc).map (fun g => g.1) =
        if metaKey p ∈ acc.map (fun g => g.1) then acc.map (fun g => g.1)
        else acc.map (fun g => g.1) ++ [metaKey p] := by
  intro acc
  induction acc with
  | nil => simp [insertMeta]
  | cons g tl ih =>
    obtain ⟨k, ps⟩ := g
    by_cases h : metaKey p = k
    · rw [show insertMeta p ((k, ps) :: tl) = (k, ps ++ [p]) :: tl by
        rw [insertMeta, if_pos h]]
      have : metaKey p ∈ ((k, ps) :: tl).map (fun g => g.1) := by
        simp [h]
      rw [if_pos this]
      simp
    · rw [show insertMeta p ((k, ps) :: tl) = (k, ps) :: insertMeta p tl by
        rw [insertMeta, if_neg h]]
      simp only [List.map_cons]
      rw [ih]
      by_cases hmem : metaKey p ∈ tl.map (fun g => g.1)
      · rw [if_pos hmem, if_pos (by simp [hmem])]
      · rw [if_neg hmem, if_neg (by simp [h, hmem])]
        simp

theorem groupByKey_keys_nodup_aux :
    ∀ (ps : List Meta) (acc : List (String × List Meta)),
      (acc.map (fun g => g.1)).Nodup →
      ((ps.foldl (fun acc p => insertMeta p acc) acc).map (fun g => g.1)).Nodup := by
  intro ps
  induction ps with
  | nil => intro acc h; exact h
  | cons p ps ih =>
    intro acc h
    refine ih (insertMeta p acc) ?_
    rw [insertMeta_keys]
    by_cases hmem : metaKey p ∈ acc.map (fun g => g.1)
    · rw [if_pos hmem]; exact h
    · rw [if_neg hmem]
      exact List.Nodup.append h (List.nodup_singleton _)
        (by simpa [List.disjoint_singleton] using hmem)

theorem groupByKey_keys_nodup (ps : List Meta) :
    ((groupByKey ps).map (fun g => g.1)).Nodup :=
  groupByKey_keys_nodup_aux ps [] (by simp)

/-- The C3 contract between the groups and the emitted request records. -/
def requestsOK (gs : List (String × List Meta)) (rs : List BatchRequest) : Prop :=
  (∀ g ∈ gs, 2 ≤ g.2.length → g.2.length ≤ MAX_PHOTOS_PER_GROUP →
    (rs.filter (fun r => r.group_id == g.1)).length = 1) ∧
  (∀ g ∈ gs, g.2.length < 2 ∨ MAX_PHOTOS_PER_GROUP < g.2.length →
    ∀ r ∈ rs, r.group_id ≠ g.1) ∧
  (∀ r ∈ rs, ∃ g ∈ gs, r.group_id = g.1 ∧ 2 ≤ g.2.length ∧
    g.2.length ≤ MAX_PHOTOS_PER_GROUP)

/-- C3: `_create_batch_jsonl` emits exactly one request record for every group
with between 2 and `MAX_PHOTOS_PER_GROUP` photos; a group with fewer than 2 or
more than the maximum photos appears in no request record — it is excluded
whole, never split or truncated — and every record comes from such an eligible
group. -/
theorem C3_one_request_per_eligible_group (exs : String → Bool) (metadata : List Meta) :
    requestsOK (groupByKey metadata) (createBatchJsonl exs metadata) := by
  have hnd := groupByKey_keys_nodup metadata
  refine ⟨?_, ?_, ?_⟩
  · intro g hg hlo hhi
    exact buildRequests_count_one exs _ hnd g hg hlo hhi
  · intro g hg hbad r hr heq
    obtain ⟨g', hg', hid, hlo', hhi'⟩ := buildRequests_provenance exs _ r hr
    have hgg : g = g' := by
      have := List.inj_on_of_nodup_map hnd hg hg'
      exact this (by rw [← hid, heq])
    subst hgg
    rcases hbad with hbad | hbad
    · omega
    · omega
  · intro r hr
    exact buildRequests_provenance exs _ r hr

end LensCleaner
